import Mathlib

/-!
Shallow Lean embedding of the `httpc` Go package (jsteenb2/httpc), covering the
parts of the code that the verified claims are about:

* the retry orchestrator `retry` (src/backoff.go:33-64),
* the built-in backoff policies and `jitter` (src/backoff.go:72-220),
* status-predicate matching `statusMatches` (src/retry.go:111-118),
* the error classifier `NewClientErr` / `HTTPErr` and its diagnostic strings
  (src/error.go),
* the response phase of the request executor, and `drain` (src/request.go).

Modelling conventions:

* Go `int` values that are always non-negative at the modelled call sites
  (attempt counters, list indices) are `Nat`; configuration integers that may
  be negative (`maxCalls`, intervals, milliseconds) are `Int`.  `time.Duration`
  values are `Int` nanoseconds.
* `rand.Intn` / `rand.Float64` draws are passed as explicit parameters, so
  every theorem about randomized code quantifies over (or fixes) the draw.
* Go errors are `Option ErrVal`: `none` is a nil error; `ErrVal` distinguishes
  values that implement the `retrier` interface (`*HTTPErr`) from plain errors
  (`errors.New`), because the orchestrator performs exactly that type
  assertion.
* The float64 arithmetic of `ExponentialBackoff` is modelled over `ℚ`; the
  claims proved about it only depend on its integer max-calls cutoff.
-/

/-! ## Strings helpers (models of the Go standard library pieces used) -/

/-- Model of `strings.Contains`, on character lists: `pat.isPrefixOf` at each
position of the subject. -/
def listContains (pat : List Char) : List Char → Bool
  | [] => pat.isEmpty
  | c :: rest => pat.isPrefixOf (c :: rest) || listContains pat rest

/-- `strContains s pat` models Go `strings.Contains(s, pat)`. -/
def strContains (s pat : String) : Bool := listContains pat.toList s.toList

/-- Model of `fmt.Sprintf("%q", s)` for strings that contain no character that
`%q` escapes (every concrete string in this development is of that form). -/
def quoteStr (s : String) : String := "\"" ++ s ++ "\""

/-! ## `url.Values` (Go `map[string][]string`)

A query is an association list from keys to value lists with no duplicate
keys, exactly the data of a Go map; `valuesGet`/`valuesSet` are
`url.Values.Get` (first value of the list, or "" when absent) and
`url.Values.Set` (replace the whole list by a singleton). -/

/-- Go `url.Values`: keys paired with their list of values. -/
abbrev Values : Type := List (String × List String)

/-- `url.Values.Get`: the first value under the key, "" if the key is absent
or its list is empty. -/
def valuesGet : Values → String → String
  | [], _ => ""
  | p :: rest, k => if p.1 = k then (match p.2 with | [] => "" | v :: _ => v) else valuesGet rest k

/-- `url.Values.Set`: replace the value list under the key with the singleton
`[v]`, adding the key when absent. -/
def valuesSet : Values → String → String → Values
  | [], k, v => [(k, [v])]
  | p :: rest, k, v => if p.1 = k then (k, [v]) :: rest else p :: valuesSet rest k v

/-- All values recorded in a query, across all keys. -/
def valuesList (q : Values) : List String := (q.map Prod.snd).flatten

/-- Insertion into a key-sorted query list (helper for `encodeValues`). -/
def sortIns (p : String × List String) : Values → Values
  | [] => [p]
  | q :: rest => if p.1 < q.1 then p :: q :: rest else q :: sortIns p rest

/-- Key-sort of a query list; Go `url.Values.Encode` emits keys in sorted
order. -/
def sortByKey : Values → Values
  | [] => []
  | p :: rest => sortIns p (sortByKey rest)

/-- Model of `url.Values.Encode`: `k=v` pairs joined by `&`, keys sorted.
Percent-escaping is omitted; every concrete key and value appearing in this
development is escape-invariant. -/
def encodeValues (q : Values) : String :=
  String.intercalate "&" ((sortByKey q).flatMap (fun p => p.2.map (fun v => p.1 ++ "=" ++ v)))

/-- A `url.URL` as the error classifier consumes it: `base` stands for the
scheme://host/path prefix of `URL.String()`, `query` for the parsed
`RawQuery`. -/
structure URLModel where
  base : String
  query : Values
  deriving DecidableEq, Repr

/-- Model of `url.URL.String()` for this split: the base followed by `?` and
the encoded query when a query is present; the zero URL prints as "". -/
def uString (u : URLModel) : String :=
  if u.base = "" ∧ u.query = [] then ""
  else u.base ++ (if u.query = [] then "" else "?" ++ encodeValues u.query)

/-! ## `HTTPErr` (src/error.go) -/

/-- The classified failure `HTTPErr` (src/error.go:18-29).  The Go field
`exists` is renamed `existsFlag` (`exists` is reserved in Lean). -/
structure HTTPErr where
  caller : String
  u : URLModel
  method : String
  errMsg : String
  respBody : String
  reqBody : String
  statusCode : Int
  retry : Bool
  notFound : Bool
  existsFlag : Bool
  deriving DecidableEq, Repr

/-- The query redaction performed inside `errorBase` (src/error.go:126-133):
replace the values under `access_token` and `secret` with the marker when the
query getter reports a non-empty value under the key. -/
def redactQuery (q : Values) : Values :=
  let q1 := if valuesGet q "access_token" ≠ "" then valuesSet q "access_token" "REDACTED" else q
  if valuesGet q1 "secret" ≠ "" then valuesSet q1 "secret" "REDACTED" else q1

/-- `(*HTTPErr).errorBase` (src/error.go:114-138): status, method, then the
URL with redacted query, omitting empty segments, joined by single spaces. -/
def HTTPErr.errorBase (e : HTTPErr) : String :=
  String.intercalate " "
    ((if e.statusCode ≠ 0 then ["status=" ++ toString e.statusCode] else []) ++
     (if e.method ≠ "" then ["method=" ++ e.method] else []) ++
     (if uString e.u ≠ "" then
        ["url=" ++ quoteStr (uString { e.u with query := redactQuery e.u.query })] else []))

/-- `(*HTTPErr).Error` (src/error.go:75-91): the base followed by the optional
err, response_body and request_body segments, empty segments omitted. -/
def HTTPErr.Error (e : HTTPErr) : String :=
  String.intercalate " "
    ([e.errorBase] ++
     (if e.errMsg ≠ "" then ["err=" ++ quoteStr e.errMsg] else []) ++
     (if e.respBody ≠ "" then ["response_body=" ++ quoteStr e.respBody] else []) ++
     (if e.reqBody ≠ "" then ["request_body=" ++ quoteStr e.reqBody] else []))

/-- `(*HTTPErr).BackoffMessage` (src/error.go:95-97). -/
def HTTPErr.BackoffMessage (e : HTTPErr) : String := e.errorBase

/-- `(*HTTPErr).Retry` (src/error.go:100-102). -/
def HTTPErr.Retry (e : HTTPErr) : Bool := e.retry

/-! ## `NewClientErr` (src/error.go:33-72) -/

/-- The request data `NewClientErr` reads from `resp.Request`: its URL,
method, Content-Type header value (`""` for a nil header), and the result of
`ioutil.ReadAll(req.Body)` (`none` when that read fails). -/
structure ReqModel where
  url : URLModel
  method : String
  contentType : String
  body : Option String
  deriving DecidableEq, Repr

/-- The response data `NewClientErr` reads: the originating request (if any),
the status code, and the result of `ioutil.ReadAll(resp.Body)`. -/
structure RespModel where
  request : Option ReqModel
  statusCode : Int
  body : Option String
  deriving DecidableEq, Repr

/-- The accumulated option record `errOpt` (src/error.go:140-146); the option
functions `Op`/`Err`/`Resp`/`Retry`/`NotFound`/`Exists`
(src/error.go:151-194) are plain field setters, so callers of the model fill
the record directly. -/
structure ErrOpt where
  retry : Bool
  notFound : Bool
  existsFlag : Bool
  err : Option String
  caller : String
  resp : Option RespModel
  deriving DecidableEq, Repr

/-- An `errOpt` with no option applied. -/
def emptyErrOpt : ErrOpt :=
  { retry := false, notFound := false, existsFlag := false, err := none, caller := "", resp := none }

/-- `NewClientErr` (src/error.go:33-72), translated clause by clause.  Note
that the source stores the captured JSON request body into the `respBody`
field (src/error.go:60) — not into `reqBody` — and then overwrites it with the
response body when that read succeeds (src/error.go:66-67). -/
def NewClientErr (opt : ErrOpt) : HTTPErr :=
  let base : HTTPErr :=
    { caller := opt.caller
      u := { base := "", query := [] }
      method := ""
      errMsg := match opt.err with | some m => m | none => "received unexpected response"
      respBody := ""
      reqBody := ""
      statusCode := 0
      retry := opt.retry
      notFound := opt.notFound
      existsFlag := opt.existsFlag }
  match opt.resp with
  | none => base
  | some resp =>
    let e1 :=
      match resp.request with
      | none => base
      | some req =>
        let e0 := { base with u := req.url, method := req.method }
        if strContains req.contentType "application/json" then
          match req.body with
          | some b => { e0 with respBody := b }
          | none => e0
        else e0
    let e2 := { e1 with statusCode := resp.statusCode }
    match resp.body with
    | some b => { e2 with respBody := b }
    | none => e2

/-! ## Go error values as the retry orchestrator sees them -/

/-- An error value returned by an attempt.  `httpErr` values implement the
`retrier` interface (src/error.go:100-102); `plainErr` values (from
`errors.New`, such as `ErrInvalidEncodeFn` at src/request.go:15) do not. -/
inductive ErrVal where
  | httpErr (e : HTTPErr)
  | plainErr (msg : String)
  deriving DecidableEq, Repr

/-- The type assertion `err.(retrier)` of src/backoff.go:48: `some flag` when
the dynamic type implements `Retry() bool`, `none` otherwise. -/
def retrierOf : ErrVal → Option Bool
  | ErrVal.httpErr e => some e.retry
  | ErrVal.plainErr _ => none

/-- The condition `ok && !r.Retry()` (src/backoff.go:48) under which the
orchestrator returns the failure without consulting the backoff policy. -/
def errStopsRetry (e : ErrVal) : Bool :=
  match retrierOf e with
  | some flag => !flag
  | none => false

/-- `ErrInvalidEncodeFn` (src/request.go:15): the configuration error returned
raw — as a plain `errors.New` value — by `(*Request).do` when a body is set
without an encode function (src/request.go:148-151). -/
def ErrInvalidEncodeFn : ErrVal := ErrVal.plainErr "no encode fn provided for body"

/-! ## Backoff policies (src/backoff.go:72-220) -/

/-- `ZeroBackoff` (src/backoff.go:75-77). -/
structure ZeroBackoff where
  maxCalls : Int
  deriving DecidableEq, Repr

/-- `ZeroBackoff.Next` (src/backoff.go:88-93). -/
def ZeroBackoff.Next (b : ZeroBackoff) (retry : Nat) : Int × Bool :=
  if 0 < b.maxCalls ∧ (retry : Int) = b.maxCalls then (0, false) else (0, true)

/-- `StopBackoff` (src/backoff.go:97). -/
structure StopBackoff where
  deriving DecidableEq, Repr

/-- `StopBackoff.Next` (src/backoff.go:106-108). -/
def StopBackoff.Next (_ : StopBackoff) (_ : Nat) : Int × Bool := (0, false)

/-- `ConstantBackoff` (src/backoff.go:111-114); `interval` in nanoseconds. -/
structure ConstantBackoff where
  interval : Int
  maxCalls : Int
  deriving DecidableEq, Repr

/-- `(*ConstantBackoff).Next` (src/backoff.go:127-132). -/
def ConstantBackoff.Next (b : ConstantBackoff) (retry : Nat) : Int × Bool :=
  if 0 < b.maxCalls ∧ (retry : Int) = b.maxCalls then (0, false) else (b.interval, true)

/-- `ExponentialBackoff` (src/backoff.go:136-141); the float64 fields are
modelled over `ℚ` (`t` initial timeout in msec, `f` factor, `m` ceiling in
msec). -/
structure ExponentialBackoff where
  t : ℚ
  f : ℚ
  m : ℚ
  maxCalls : Int

/-- Truncation of a rational toward zero, the behaviour of Go's
`int64(float64)` conversion. -/
def ratTrunc (q : ℚ) : Int := q.num / (q.den : Int)

/-- `(*ExponentialBackoff).Next` (src/backoff.go:158-169).  `r` is the draw
`1.0 + rand.Float64()`, a value in `[1, 2)`, passed explicitly. -/
def ExponentialBackoff.Next (b : ExponentialBackoff) (retry : Nat) (r : ℚ) : Int × Bool :=
  if 0 < b.maxCalls ∧ (retry : Int) = b.maxCalls then (0, false)
  else
    let m := min (r * b.t * b.f ^ retry) b.m
    if b.m ≤ m then (0, false)
    else (ratTrunc m * 1000000, true)

/-- `jitter` (src/backoff.go:215-220).  `d` is the draw `rand.Intn(millis)`,
a value in `[0, millis)` (that call is only reached when `millis > 0`, and
`rand.Intn(1)` is always `0`). -/
def jitter (millis d : Int) : Int :=
  if millis ≤ 0 then 0 else millis / 2 + d

/-- `SimpleBackoff` (src/backoff.go:175-180); the Go field `jitter` is
renamed `jitterFlag` (the `jitter` function above keeps the source name).
`ticks` are milliseconds.  The mutex only guards the struct against
concurrent `Next` calls and has no sequential behaviour. -/
structure SimpleBackoff where
  ticks : List Int
  jitterFlag : Bool
  maxCalls : Int
  deriving DecidableEq, Repr

/-- `(*SimpleBackoff).Next` (src/backoff.go:195-212).  `d` is the
`rand.Intn` draw consumed by `jitter` when jittering is enabled.  Note the
0-based list index `b.ticks[retry]` against the 1-based `retry` counter. -/
def SimpleBackoff.Next (b : SimpleBackoff) (retry : Nat) (d : Int) : Int × Bool :=
  if 0 < b.maxCalls ∧ (retry : Int) = b.maxCalls then (0, false)
  else if b.ticks.length ≤ retry then (0, false)
  else
    let ms := b.ticks.getD retry 0
    let ms2 := if b.jitterFlag then jitter ms d else ms
    (ms2 * 1000000, true)

/-! ## The retry orchestrator (src/backoff.go:33-64)

`retry(ctx, fn, b)` is modelled as a fuel-indexed function.  The pieces of
the Go loop map as follows:

* `fn : Nat → Option ErrVal` — the attempt function; its argument is the
  0-based attempt counter `n` that the Go code attaches to the context
  (src/backoff.go:43) before each call.
* `next : Nat → Int × Bool` — `backoffPolicy.Next`, already instantiated with
  its random draws (the policy value is created once per call at
  src/backoff.go:41 and all built-in `Next` methods are functions of the
  attempt number and the draw).
* `cancel : Nat → Bool` — the outcome of the `select` race at
  src/backoff.go:58-62: `cancel k = true` means the context's cancellation
  fires before the wait following the k-th attempt elapses.
* The result pairs the outcome with the number of times `fn` was invoked;
  `none` means the fuel ran out before the loop returned (the Go loop can
  genuinely run forever, e.g. `ZeroBackoff` with `maxCalls = 0`). -/

/-- Outcome of the orchestrator: `success` for a nil error, `failure e` for a
returned attempt failure, `canceled` for `ctx.Err()` returned from the
cancellation branch of the `select`. -/
inductive RetryResult where
  | success
  | failure (e : ErrVal)
  | canceled
  deriving DecidableEq, Repr

/-- One state of the Go loop of src/backoff.go:42-63: `n` previous attempts
have been made.  Each unfolding performs `fn n`, the `retrier` check, the
`Next(n+1)` consultation and the cancellation race, exactly in source
order. -/
def retryAux (fn : Nat → Option ErrVal) (next : Nat → Int × Bool) (cancel : Nat → Bool) :
    Nat → Nat → Option (RetryResult × Nat)
  | 0, _ => none
  | fuel + 1, n =>
    match fn n with
    | none => some (RetryResult.success, n + 1)
    | some e =>
      if errStopsRetry e then some (RetryResult.failure e, n + 1)
      else if (next (n + 1)).2 = false then some (RetryResult.failure e, n + 1)
      else if cancel (n + 1) then some (RetryResult.canceled, n + 1)
      else retryAux fn next cancel fuel (n + 1)

/-- `retry` (src/backoff.go:33-64), started from zero previous attempts. -/
def retry (fuel : Nat) (fn : Nat → Option ErrVal) (next : Nat → Int × Bool)
    (cancel : Nat → Bool) : Option (RetryResult × Nat) :=
  retryAux fn next cancel fuel 0

/-! ## Status predicates (src/retry.go:111-118) -/

/-- `statusMatches` (src/retry.go:111-118): first-match loop over the
predicate list. -/
def statusMatches (status : Int) : List (Int → Bool) → Bool
  | [] => false
  | fn :: rest => if fn status then true else statusMatches status rest

/-! ## `drain` and the executor's response phase (src/request.go) -/

/-- `drain` (src/request.go:248-257) given the error text of the `io.Copy`
and of the `Close` call (`none` = that step succeeded): the collected
messages joined by "; ".  The Go function wraps this string in `errors.New`,
so it returns a non-nil error even when both steps succeed. -/
def drain (copyErr closeErr : Option String) : String :=
  String.intercalate "; "
    ((match copyErr with | some m => [m] | none => []) ++
     (match closeErr with | some m => [m] | none => []))

/-- The predicate lists of a `Request` (src/request.go:41-44) that the
response phase consults. -/
structure DoCfg where
  successFns : List (Int → Bool)
  retryStatusFns : List (Int → Bool)
  notFoundFns : List (Int → Bool)
  existsFns : List (Int → Bool)

/-- The response phase of `(*Request).do` (src/request.go:189-220) for a
request with `onErrorFn = nil` and `decodeFn = nil`:

* the deferred `drain(resp.Body)` (src/request.go:189-191) runs on every exit
  path; its return value is bound to nothing and discarded — `drainCopyErr`
  and `drainCloseErr` are the error texts its two steps produce;
* a status that matches no success predicate yields
  `NewClientErr(Resp(resp), statusErrOpts...)` where `statusErrOpts`
  (src/request.go:222-234) sets the retry / notFound / exists flags exactly
  when the corresponding predicate list matches the status;
* a matching status returns nil since no decode function is set
  (src/request.go:207-209). -/
def doRespond (cfg : DoCfg) (resp : RespModel) (drainCopyErr drainCloseErr : Option String) :
    Option HTTPErr :=
  let _dropped := drain drainCopyErr drainCloseErr
  if statusMatches resp.statusCode cfg.successFns = false then
    some (NewClientErr
      { emptyErrOpt with
          resp := some resp
          retry := statusMatches resp.statusCode cfg.retryStatusFns
          notFound := statusMatches resp.statusCode cfg.notFoundFns
          existsFlag := statusMatches resp.statusCode cfg.existsFns })
  else none

/-! ## C4 — status matching is an any-match over the predicate list -/

/-- C4: for every list of status predicates and every status, `statusMatches`
returns true iff at least one predicate in the list returns true for the
status; the empty list never matches.  Confirms the claim. -/
theorem statusMatches_any_iff :
    ∀ (status : Int) (fns : List (Int → Bool)),
      (statusMatches status fns = true ↔ ∃ fn ∈ fns, fn status = true) ∧
      statusMatches status [] = false := by
  have key : ∀ (status : Int) (fns : List (Int → Bool)),
      statusMatches status fns = fns.any (fun f => f status) := by
    intro status fns
    induction fns with
    | nil => rfl
    | cons f rest ih => by_cases h : f status = true <;> simp [statusMatches, h, ih]
  refine fun status fns => ⟨?_, rfl⟩
  rw [key]
  simp [List.any_eq_true]

/-! ## C7 — jitter can return zero (and fall below half the base) -/

/-- C7: the claim fails on the code.  For base 1 the only possible draw of
`rand.Intn(1)` is 0 and `jitter` returns exactly 0 — not strictly positive —
and for base 3 with draw 0 it returns 1, below the claimed lower bound
0.5 × 3 (the final conjunct states 1 < 1.5 in integers).  This also
contradicts the function's own comment (src/backoff.go:214). -/
theorem jitter_violates_positivity_and_range :
    jitter 1 0 = 0 ∧ jitter 3 0 = 1 ∧ 2 * jitter 3 0 < 3 := by decide

/-! ## C5 — a stop result is not terminal for the built-in policies -/

/-- C5 counterexample: the `ZeroBackoff` instance with max 1 returns stop at
attempt 1 and continue again at the larger attempt number 2, so the
EXHAUSTED state is not terminal as claimed. -/
theorem zeroBackoff_stop_then_continue :
    (ZeroBackoff.Next ⟨1⟩ 1).2 = false ∧ (ZeroBackoff.Next ⟨1⟩ 2).2 = true := by decide

/-- C5 amended: with max-calls m > 0, the built-in policies return stop
exactly when the attempt number equals m (for the fixed-schedule policy:
or the attempt number reaches the tick-list length); in particular a call
with an attempt number strictly beyond m — and below any tick-list bound —
returns continue again, so a stop result is not terminal. -/
theorem backoff_stop_characterization (m : Int) (hm : 0 < m) (k : Nat)
    (interval : Int) (ticks : List Int) (j : Bool) (d : Int) :
    ((ZeroBackoff.Next ⟨m⟩ k).2 = false ↔ (k : Int) = m) ∧
    ((ConstantBackoff.Next ⟨interval, m⟩ k).2 = false ↔ (k : Int) = m) ∧
    ((SimpleBackoff.Next ⟨ticks, j, m⟩ k d).2 = false ↔ ((k : Int) = m ∨ ticks.length ≤ k)) := by
  refine ⟨?_, ?_, ?_⟩
  · by_cases h : (k : Int) = m <;> simp [ZeroBackoff.Next, hm, h]
  · by_cases h : (k : Int) = m <;> simp [ConstantBackoff.Next, hm, h]
  · by_cases h : (k : Int) = m
    · simp [SimpleBackoff.Next, hm, h]
    · by_cases h2 : ticks.length ≤ k <;> simp [SimpleBackoff.Next, hm, h, h2]

/-- C5 witness: the amended characterization applied at max-calls 2,
attempt 1, interval 5, tick list [7]. -/
theorem backoff_stop_characterization_witness :
    (0 : Int) < 2 ∧
      (((ZeroBackoff.Next ⟨2⟩ 1).2 = false ↔ ((1 : Nat) : Int) = 2) ∧
       ((ConstantBackoff.Next ⟨5, 2⟩ 1).2 = false ↔ ((1 : Nat) : Int) = 2) ∧
       ((SimpleBackoff.Next ⟨[7], false, 2⟩ 1 0).2 = false ↔
         (((1 : Nat) : Int) = 2 ∨ ([7] : List Int).length ≤ 1))) :=
  ⟨by decide, backoff_stop_characterization 2 (by decide) 1 5 [7] false 0⟩

/-! ## C6 — the fixed-schedule policy indexes its tick list 0-based -/

/-- C6 counterexample: for tick list [100, 200] (milliseconds) the claim says
`Next(1)` waits the 1st entry (100ms) and `Next(2)` waits the 2nd entry and
continues; the code returns the 2nd entry (200ms = 200000000ns) at attempt 1
and stops at attempt 2. -/
theorem simpleBackoff_index_counterexample :
    SimpleBackoff.Next ⟨[100, 200], false, 0⟩ 1 0 = (200000000, true) ∧
    SimpleBackoff.Next ⟨[100, 200], false, 0⟩ 2 0 = (0, false) := by decide

/-- C6 amended: when max attempts is not hit, `Next(n)` returns the entry of
the tick list at 0-based index n — i.e. the (n+1)-th entry, jittered via
`jitter` when jittering is enabled — in nanoseconds together with continue,
and it stops as soon as n reaches or exceeds the list length. -/
theorem simpleBackoff_next_amended (ticks : List Int) (m : Int) (k : Nat) (d : Int)
    (hk : ¬(0 < m ∧ (k : Int) = m)) :
    (∀ h : k < ticks.length,
        SimpleBackoff.Next ⟨ticks, false, m⟩ k d = (ticks.get ⟨k, h⟩ * 1000000, true) ∧
        SimpleBackoff.Next ⟨ticks, true, m⟩ k d = (jitter (ticks.get ⟨k, h⟩) d * 1000000, true)) ∧
    (∀ j : Bool, ticks.length ≤ k → SimpleBackoff.Next ⟨ticks, j, m⟩ k d = (0, false)) := by
  constructor
  · intro h
    have h2 : ¬ ticks.length ≤ k := by omega
    constructor <;>
      simp [SimpleBackoff.Next, hk, h2, List.getD_eq_getElem?_getD, List.getElem?_eq_getElem h,
        List.get_eq_getElem]
  · intro j h2
    simp [SimpleBackoff.Next, hk, h2]

/-- C6 witness: the amended statement applied to tick list [100, 200] at
attempt 0 with no max: the 0-index entry, 100ms, is returned. -/
theorem simpleBackoff_next_amended_witness :
    SimpleBackoff.Next ⟨[100, 200], false, 0⟩ 0 0 = (100000000, true) :=
  ((simpleBackoff_next_amended [100, 200] 0 0 0 (by decide)).1 (by decide)).1

/-! ## Shared concrete error values -/

/-- An `HTTPErr` with all fields at their zero values. -/
def emptyHTTPErr : HTTPErr :=
  { caller := "", u := { base := "", query := [] }, method := "", errMsg := "",
    respBody := "", reqBody := "", statusCode := 0,
    retry := false, notFound := false, existsFlag := false }

/-- A classified failure without the retry flag: the orchestrator's type
assertion sees `Retry() = false`. -/
def nonRetryErrVal : ErrVal := ErrVal.httpErr emptyHTTPErr

/-- A classified failure with the retry flag set. -/
def retryableErrVal : ErrVal := ErrVal.httpErr { emptyHTTPErr with retry := true }

/-! ## Loop lemmas for the retry orchestrator -/

/-- When every attempt fails retryably, the policy continues strictly below
attempt N and stops at attempt N, and cancellation never fires, the loop
makes exactly N attempts and returns the last failure. -/
theorem retryAux_exact (fn : Nat → Option ErrVal) (next : Nat → Int × Bool)
    (cancel : Nat → Bool) (e : Nat → ErrVal) (N : Nat)
    (hfn : ∀ k, fn k = some (e k)) (hret : ∀ k, errStopsRetry (e k) = false)
    (hcont : ∀ k, 1 ≤ k → k < N → (next k).2 = true)
    (hstop : (next N).2 = false)
    (hcancel : ∀ k, cancel k = false) :
    ∀ fuel n, n < N → N - n ≤ fuel →
      retryAux fn next cancel fuel n = some (RetryResult.failure (e (N - 1)), N) := by
  intro fuel
  induction fuel with
  | zero => intro n hn hfuel; omega
  | succ fuel ih =>
    intro n hn hfuel
    by_cases h : n + 1 = N
    · subst h
      have hs : (next (n + 1)).2 = false := hstop
      simp [retryAux, hfn n, hret n, hs]
    · have hc : (next (n + 1)).2 = true := hcont (n + 1) (by omega) (by omega)
      have step : retryAux fn next cancel (fuel + 1) n = retryAux fn next cancel fuel (n + 1) := by
        simp [retryAux, hfn n, hret n, hc, hcancel (n + 1)]
      rw [step]
      exact ih (n + 1) (by omega) (by omega)

/-- When every attempt fails retryably, the policy is guaranteed to stop at
attempt N at the latest, and cancellation never fires, the loop terminates
after some count of attempts that never exceeds N, returning the failure of
the last attempt. -/
theorem retryAux_atMost (fn : Nat → Option ErrVal) (next : Nat → Int × Bool)
    (cancel : Nat → Bool) (e : Nat → ErrVal) (N : Nat)
    (hfn : ∀ k, fn k = some (e k)) (hret : ∀ k, errStopsRetry (e k) = false)
    (hstop : (next N).2 = false)
    (hcancel : ∀ k, cancel k = false) :
    ∀ fuel n, n < N → N - n ≤ fuel →
      ∃ cnt, n < cnt ∧ cnt ≤ N ∧
        retryAux fn next cancel fuel n = some (RetryResult.failure (e (cnt - 1)), cnt) := by
  intro fuel
  induction fuel with
  | zero => intro n hn hfuel; omega
  | succ fuel ih =>
    intro n hn hfuel
    by_cases hb : (next (n + 1)).2 = false
    · refine ⟨n + 1, by omega, by omega, ?_⟩
      simp [retryAux, hfn n, hret n, hb]
    · have hc : (next (n + 1)).2 = true := by
        revert hb; cases (next (n + 1)).2 <;> simp
      have hne : n + 1 ≠ N := by
        intro hEq; rw [hEq, hstop] at hc; exact Bool.noConfusion hc
      obtain ⟨cnt, hc1, hc2, hc3⟩ := ih (n + 1) (by omega) (by omega)
      refine ⟨cnt, by omega, hc2, ?_⟩
      have step : retryAux fn next cancel (fuel + 1) n = retryAux fn next cancel fuel (n + 1) := by
        simp [retryAux, hfn n, hret n, hc, hcancel (n + 1)]
      rw [step]
      exact hc3

/-! ## C1 — a failure without the retrier capability is retried -/

/-- C1 counterexample: an attempt function that always returns the raw
configuration error `ErrInvalidEncodeFn` (a plain error that does not
implement the `retrier` interface), under the no-wait backoff with max 2, is
invoked twice — the claim says it would be returned immediately and never
invoked again. -/
theorem config_error_retried_counterexample :
    retry 10 (fun _ => some ErrInvalidEncodeFn) (fun k => ZeroBackoff.Next ⟨2⟩ k)
      (fun _ => false) = some (RetryResult.failure ErrInvalidEncodeFn, 2) := by decide

/-- C1 amended: the orchestrator returns a failure immediately — after exactly
one invocation, regardless of the backoff policy — precisely when the failure
exposes the retrier capability with a false flag (`ok && !r.Retry()`,
src/backoff.go:48).  A failure that does not expose the capability at all,
such as the raw configuration error, is instead treated as retryable: the
orchestrator consults the backoff policy and, if it continues and no
cancellation fires, re-enters the loop for a second attempt. -/
theorem retry_non_retrier_semantics (fn : Nat → Option ErrVal) (next : Nat → Int × Bool)
    (cancel : Nat → Bool) (fuel : Nat) (e : ErrVal) :
    (fn 0 = some e → errStopsRetry e = true →
      retry (fuel + 1) fn next cancel = some (RetryResult.failure e, 1)) ∧
    (fn 0 = some e → retrierOf e = none → (next 1).2 = true → cancel 1 = false →
      retry (fuel + 1) fn next cancel = retryAux fn next cancel fuel 1) := by
  constructor
  · intro h1 h2
    simp [retry, retryAux, h1, h2]
  · intro h1 h2 h3 h4
    have h5 : errStopsRetry e = false := by simp [errStopsRetry, h2]
    simp [retry, retryAux, h1, h5, h3, h4]

/-- C1 witness: a classified failure with `Retry() = false` is returned after
exactly one attempt. -/
theorem retry_non_retrier_semantics_witness :
    retry 4 (fun _ => some nonRetryErrVal) (fun _ => ((0 : Int), true)) (fun _ => false)
      = some (RetryResult.failure nonRetryErrVal, 1) :=
  (retry_non_retrier_semantics (fun _ => some nonRetryErrVal) (fun _ => ((0 : Int), true))
      (fun _ => false) 3 nonRetryErrVal).1 rfl rfl

/-! ## C3 — cancellation during the inter-retry wait -/

/-- C3: after a retryable failure at attempt index n, when the backoff policy
continues, the `select` race decides: if cancellation fires first the call
returns the cancellation outcome (`ctx.Err()`) — a value distinct from the
attempt's failure — after exactly n+1 attempts and dispatches nothing
further; if the wait elapses uncancelled, the loop re-enters with the next
attempt index.  Confirms the claim. -/
theorem retry_cancellation (fn : Nat → Option ErrVal) (next : Nat → Int × Bool)
    (cancel : Nat → Bool) (n fuel : Nat) (e : ErrVal)
    (h1 : fn n = some e) (h2 : errStopsRetry e = false) (h3 : (next (n + 1)).2 = true) :
    (cancel (n + 1) = true →
      retryAux fn next cancel (fuel + 1) n = some (RetryResult.canceled, n + 1) ∧
      RetryResult.canceled ≠ RetryResult.failure e) ∧
    (cancel (n + 1) = false →
      retryAux fn next cancel (fuel + 1) n = retryAux fn next cancel fuel (n + 1)) := by
  constructor
  · intro h4
    refine ⟨?_, by simp⟩
    simp [retryAux, h1, h2, h3, h4]
  · intro h4
    simp [retryAux, h1, h2, h3, h4]

/-- C3 witness: cancellation firing during the first inter-retry wait returns
the cancellation outcome after exactly one attempt. -/
theorem retry_cancellation_witness :
    retryAux (fun _ => some retryableErrVal) (fun _ => ((5 : Int), true)) (fun _ => true) 7 0
      = some (RetryResult.canceled, 1) :=
  ((retry_cancellation (fun _ => some retryableErrVal) (fun _ => ((5 : Int), true))
      (fun _ => true) 0 6 retryableErrVal rfl rfl rfl).1 rfl).1

/-! ## C2 — attempt counts under max-attempts N -/

/-- C2 counterexample: the fixed-schedule strategy configured with
max-attempts 3 and an empty tick list, under perpetually retryable failures,
makes exactly 1 attempt — not 3 — because its `Next` stops as soon as the
attempt index reaches the tick-list length. -/
theorem simpleBackoff_fewer_than_max_counterexample :
    retry 10 (fun _ => some retryableErrVal) (fun k => SimpleBackoff.Next ⟨[], false, 3⟩ k 0)
      (fun _ => false) = some (RetryResult.failure retryableErrVal, 1) := by decide

/-- C2 amended: with max-attempts N > 0 and every attempt returning a
retryable failure, the orchestrator invokes the attempt function exactly N
times and returns the last failure for the no-wait (`ZeroBackoff`) and
fixed-interval (`ConstantBackoff`) strategies; for the fixed-schedule
(`SimpleBackoff`) and exponential (`ExponentialBackoff`) strategies it makes
at most N attempts and returns the failure of the last one, but may stop
earlier (tick-list exhaustion, or the computed wait reaching the ceiling). -/
theorem retry_max_attempts_amended (N : Nat) (hN : 0 < N) (e : Nat → ErrVal)
    (hret : ∀ k, errStopsRetry (e k) = false) (fuel : Nat) (hfuel : N ≤ fuel)
    (interval : Int) (ticks : List Int) (j : Bool) (d : Nat → Int)
    (t m : ℚ) (rd : Nat → ℚ) :
    (retry fuel (fun k => some (e k)) (fun k => ZeroBackoff.Next ⟨(N : Int)⟩ k)
       (fun _ => false) = some (RetryResult.failure (e (N - 1)), N)) ∧
    (retry fuel (fun k => some (e k)) (fun k => ConstantBackoff.Next ⟨interval, (N : Int)⟩ k)
       (fun _ => false) = some (RetryResult.failure (e (N - 1)), N)) ∧
    (∃ cnt, 0 < cnt ∧ cnt ≤ N ∧
      retry fuel (fun k => some (e k)) (fun k => SimpleBackoff.Next ⟨ticks, j, (N : Int)⟩ k (d k))
        (fun _ => false) = some (RetryResult.failure (e (cnt - 1)), cnt)) ∧
    (∃ cnt, 0 < cnt ∧ cnt ≤ N ∧
      retry fuel (fun k => some (e k))
        (fun k => ExponentialBackoff.Next ⟨t, 2, m, (N : Int)⟩ k (rd k))
        (fun _ => false) = some (RetryResult.failure (e (cnt - 1)), cnt)) := by
  refine ⟨?_, ?_, ?_, ?_⟩
  · refine retryAux_exact _ _ _ e N (fun k => rfl) hret ?_ ?_ (fun k => rfl) fuel 0 hN (by omega)
    · intro k h1 h2
      simp only [ZeroBackoff.Next]
      split
      · exfalso; omega
      · rfl
    · simp only [ZeroBackoff.Next]
      split
      · rfl
      · rename_i hcond; exact absurd ⟨Int.natCast_pos.mpr hN, trivial⟩ hcond
  · refine retryAux_exact _ _ _ e N (fun k => rfl) hret ?_ ?_ (fun k => rfl) fuel 0 hN (by omega)
    · intro k h1 h2
      simp only [ConstantBackoff.Next]
      split
      · exfalso; omega
      · rfl
    · simp only [ConstantBackoff.Next]
      split
      · rfl
      · rename_i hcond; exact absurd ⟨Int.natCast_pos.mpr hN, trivial⟩ hcond
  · have hstop : ((fun k => SimpleBackoff.Next ⟨ticks, j, (N : Int)⟩ k (d k)) N).2 = false := by
      simp only [SimpleBackoff.Next]
      split
      · rfl
      · rename_i hcond; exact absurd ⟨Int.natCast_pos.mpr hN, trivial⟩ hcond
    exact retryAux_atMost _ _ _ e N (fun k => rfl) hret hstop (fun k => rfl) fuel 0 hN (by omega)
  · have hstop :
        ((fun k => ExponentialBackoff.Next ⟨t, 2, m, (N : Int)⟩ k (rd k)) N).2 = false := by
      simp only [ExponentialBackoff.Next]
      split
      · rfl
      · rename_i hcond; exact absurd ⟨Int.natCast_pos.mpr hN, trivial⟩ hcond
    exact retryAux_atMost _ _ _ e N (fun k => rfl) hret hstop (fun k => rfl) fuel 0 hN (by omega)

/-- C2 witness: the amended bound applied at N = 2 with a retryable failure,
interval 5ns, tick list [8, 9]ms, draws fixed at 0 and 1. -/
theorem retry_max_attempts_amended_witness :
    0 < 2 ∧
    ((retry 2 (fun _ => some retryableErrVal) (fun k => ZeroBackoff.Next ⟨((2 : Nat) : Int)⟩ k)
        (fun _ => false) = some (RetryResult.failure retryableErrVal, 2)) ∧
     (retry 2 (fun _ => some retryableErrVal)
        (fun k => ConstantBackoff.Next ⟨5, ((2 : Nat) : Int)⟩ k)
        (fun _ => false) = some (RetryResult.failure retryableErrVal, 2)) ∧
     (∃ cnt, 0 < cnt ∧ cnt ≤ 2 ∧
       retry 2 (fun _ => some retryableErrVal)
         (fun k => SimpleBackoff.Next ⟨[8, 9], false, ((2 : Nat) : Int)⟩ k ((fun _ => 0) k))
         (fun _ => false) = some (RetryResult.failure retryableErrVal, cnt)) ∧
     (∃ cnt, 0 < cnt ∧ cnt ≤ 2 ∧
       retry 2 (fun _ => some retryableErrVal)
         (fun k => ExponentialBackoff.Next ⟨1, 2, 1000000, ((2 : Nat) : Int)⟩ k ((fun _ => 1) k))
         (fun _ => false) = some (RetryResult.failure retryableErrVal, cnt))) :=
  ⟨by decide, retry_max_attempts_amended 2 (by decide) (fun _ => retryableErrVal)
    (fun _ => rfl) 2 (by decide) 5 [8, 9] false (fun _ => 0) 1 1000000 (fun _ => 1)⟩

/-! ## Query lemmas for the redaction claims -/

/-- Membership in the collected values of a query. -/
theorem mem_valuesList {x : String} {q : Values} : x ∈ valuesList q ↔ ∃ p ∈ q, x ∈ p.2 := by
  simp only [valuesList, List.mem_flatten, List.mem_map]
  constructor
  · rintro ⟨l, ⟨p, hp, rfl⟩, hx⟩
    exact ⟨p, hp, hx⟩
  · rintro ⟨p, hp, hx⟩
    exact ⟨p.2, ⟨p, hp, rfl⟩, hx⟩

/-- Setting a key makes the getter report the new value. -/
theorem valuesGet_set_same (q : Values) (k w : String) : valuesGet (valuesSet q k w) k = w := by
  induction q with
  | nil => simp [valuesSet, valuesGet]
  | cons p rest ih =>
    by_cases h : p.1 = k
    · simp [valuesSet, h, valuesGet]
    · simp [valuesSet, h, valuesGet, ih]

/-- Setting a key leaves the getter of any other key unchanged. -/
theorem valuesGet_set_other (q : Values) (k w k2 : String) (hne : k2 ≠ k) :
    valuesGet (valuesSet q k w) k2 = valuesGet q k2 := by
  have hne2 : ¬(k = k2) := fun h => hne h.symm
  induction q with
  | nil => simp [valuesSet, valuesGet, hne2]
  | cons p rest ih =>
    by_cases h : p.1 = k
    · simp [valuesSet, h, valuesGet, hne2]
    · simp [valuesSet, h, valuesGet, ih]

/-- Every entry of `valuesSet q k w` is either the new binding `(k, [w])` or
an entry of `q` whose key differs from `k` (for a query with no duplicate
keys, i.e. one that came from a Go map). -/
theorem mem_valuesSet_elim (p2 : String × List String) (q : Values) (k w : String)
    (hnd : (q.map Prod.fst).Nodup) (hp : p2 ∈ valuesSet q k w) :
    p2 = (k, [w]) ∨ (p2 ∈ q ∧ p2.1 ≠ k) := by
  induction q with
  | nil =>
    simp only [valuesSet, List.mem_singleton] at hp
    exact Or.inl hp
  | cons p rest ih =>
    rw [List.map_cons, List.nodup_cons] at hnd
    by_cases h : p.1 = k
    · rw [valuesSet, if_pos h] at hp
      rcases List.mem_cons.mp hp with hEq | hmem
      · exact Or.inl hEq
      · refine Or.inr ⟨List.mem_cons_of_mem p hmem, ?_⟩
        intro hk
        exact hnd.1 (h ▸ hk ▸ List.mem_map_of_mem Prod.fst hmem)
    · rw [valuesSet, if_neg h] at hp
      rcases List.mem_cons.mp hp with hEq | hmem
      · exact Or.inr ⟨by rw [hEq]; exact List.mem_cons_self p rest, by rw [hEq]; exact h⟩
      · rcases ih hnd.2 hmem with hl | ⟨hmem2, hk⟩
        · exact Or.inl hl
        · exact Or.inr ⟨List.mem_cons_of_mem p hmem2, hk⟩

/-! ## C8 — secret redaction in the recorded URL query -/

/-- C8 counterexample: a URL whose query carries the non-empty value "XYZ"
under `access_token` as a second value behind an empty first value.
`url.Values.Get` reports only the first value, so the guard at
src/error.go:127 sees "" and performs no redaction: the query is recorded
unchanged, the secret value survives redaction, and the composed diagnostic
of the classified failure contains "XYZ" and no redaction marker. -/
theorem redact_misses_secret_counterexample :
    redactQuery [("access_token", ["", "XYZ"])] = [("access_token", ["", "XYZ"])] ∧
    "XYZ" ∈ valuesList (redactQuery [("access_token", ["", "XYZ"])]) ∧
    strContains
      (HTTPErr.Error { emptyHTTPErr with
        u := { base := "http://example.com/a", query := [("access_token", ["", "XYZ"])] } })
      "XYZ" = true ∧
    strContains
      (HTTPErr.Error { emptyHTTPErr with
        u := { base := "http://example.com/a", query := [("access_token", ["", "XYZ"])] } })
      "REDACTED" = false := by decide

/-- The keys of `valuesSet q k w` are among the keys of `q` plus `k`. -/
theorem mem_keys_valuesSet {x : String} (q : Values) (k w : String)
    (hx : x ∈ (valuesSet q k w).map Prod.fst) : x ∈ q.map Prod.fst ∨ x = k := by
  induction q with
  | nil =>
    simp only [valuesSet, List.map_cons, List.map_nil, List.mem_singleton] at hx
    exact Or.inr hx
  | cons p rest ih =>
    by_cases h : p.1 = k
    · rw [valuesSet, if_pos h, List.map_cons] at hx
      rcases List.mem_cons.mp hx with hEq | hmem
      · exact Or.inr hEq
      · exact Or.inl (List.mem_cons_of_mem p.1 hmem)
    · rw [valuesSet, if_neg h, List.map_cons] at hx
      rcases List.mem_cons.mp hx with hEq | hmem
      · exact Or.inl (hEq ▸ List.mem_cons_self p.1 (rest.map Prod.fst))
      · rcases ih hmem with hmem2 | hEq2
        · exact Or.inl (List.mem_cons_of_mem p.1 hmem2)
        · exact Or.inr hEq2

/-- `valuesSet` preserves key uniqueness. -/
theorem nodup_keys_valuesSet (q : Values) (k w : String)
    (hnd : (q.map Prod.fst).Nodup) : ((valuesSet q k w).map Prod.fst).Nodup := by
  induction q with
  | nil => simp [valuesSet]
  | cons p rest ih =>
    rw [List.map_cons, List.nodup_cons] at hnd
    by_cases h : p.1 = k
    · rw [valuesSet, if_pos h, List.map_cons, List.nodup_cons]
      exact ⟨h ▸ hnd.1, hnd.2⟩
    · rw [valuesSet, if_neg h, List.map_cons, List.nodup_cons]
      refine ⟨?_, ih hnd.2⟩
      intro hx
      rcases mem_keys_valuesSet rest k w hx with hmem | hEq
      · exact hnd.1 hmem
      · exact h hEq

/-- C8 amended: for a failure whose recorded URL query is a Go map (no
duplicate keys) and whose query getter reports the non-empty value v under
`access_token` (respectively `secret`) — i.e. v is the first value under the
key — and v appears under no other key, the redacted query recorded in the
diagnostics maps that key to the fixed marker "REDACTED" and no longer
carries v anywhere. -/
theorem redact_secret_amended (q : Values) (v : String)
    (hnd : (q.map Prod.fst).Nodup) (hmark : v ≠ "REDACTED") :
    (valuesGet q "access_token" = v → v ≠ "" →
      (∀ p ∈ q, p.1 ≠ "access_token" → v ∉ p.2) →
      valuesGet (redactQuery q) "access_token" = "REDACTED" ∧
      v ∉ valuesList (redactQuery q)) ∧
    (valuesGet q "secret" = v → v ≠ "" →
      (∀ p ∈ q, p.1 ≠ "secret" → v ∉ p.2) →
      valuesGet (redactQuery q) "secret" = "REDACTED" ∧
      v ∉ valuesList (redactQuery q)) := by
  constructor
  · intro hget hv hother
    have hguard : valuesGet q "access_token" ≠ "" := by rw [hget]; exact hv
    by_cases hsec : valuesGet (valuesSet q "access_token" "REDACTED") "secret" ≠ ""
    · have hr : redactQuery q =
          valuesSet (valuesSet q "access_token" "REDACTED") "secret" "REDACTED" := by
        simp only [redactQuery]
        rw [if_pos hguard, if_pos hsec]
      rw [hr]
      constructor
      · rw [valuesGet_set_other _ _ _ _ (by decide), valuesGet_set_same]
      · intro hvmem
        obtain ⟨p, hp, hvp⟩ := mem_valuesList.mp hvmem
        rcases mem_valuesSet_elim p _ _ _ (nodup_keys_valuesSet q _ _ hnd) hp with hEq | ⟨hp2, _⟩
        · rw [hEq] at hvp
          exact hmark (List.mem_singleton.mp hvp)
        · rcases mem_valuesSet_elim p _ _ _ hnd hp2 with hEq2 | ⟨hp3, hk3⟩
          · rw [hEq2] at hvp
            exact hmark (List.mem_singleton.mp hvp)
          · exact hother p hp3 hk3 hvp
    · have hr : redactQuery q = valuesSet q "access_token" "REDACTED" := by
        simp only [redactQuery]
        rw [if_pos hguard, if_neg hsec]
      rw [hr]
      constructor
      · exact valuesGet_set_same q _ _
      · intro hvmem
        obtain ⟨p, hp, hvp⟩ := mem_valuesList.mp hvmem
        rcases mem_valuesSet_elim p _ _ _ hnd hp with hEq | ⟨hp2, hk2⟩
        · rw [hEq] at hvp
          exact hmark (List.mem_singleton.mp hvp)
        · exact hother p hp2 hk2 hvp
  · intro hget hv hother
    by_cases ha : valuesGet q "access_token" ≠ ""
    · have hsec : valuesGet (valuesSet q "access_token" "REDACTED") "secret" ≠ "" := by
        rw [valuesGet_set_other _ _ _ _ (by decide), hget]
        exact hv
      have hr : redactQuery q =
          valuesSet (valuesSet q "access_token" "REDACTED") "secret" "REDACTED" := by
        simp only [redactQuery]
        rw [if_pos ha, if_pos hsec]
      rw [hr]
      constructor
      · exact valuesGet_set_same _ _ _
      · intro hvmem
        obtain ⟨p, hp, hvp⟩ := mem_valuesList.mp hvmem
        rcases mem_valuesSet_elim p _ _ _ (nodup_keys_valuesSet q _ _ hnd) hp with
          hEq | ⟨hp2, hk2⟩
        · rw [hEq] at hvp
          exact hmark (List.mem_singleton.mp hvp)
        · rcases mem_valuesSet_elim p _ _ _ hnd hp2 with hEq2 | ⟨hp3, _⟩
          · rw [hEq2] at hvp
            exact hmark (List.mem_singleton.mp hvp)
          · exact hother p hp3 hk2 hvp
    · have hsec : valuesGet q "secret" ≠ "" := by rw [hget]; exact hv
      have hr : redactQuery q = valuesSet q "secret" "REDACTED" := by
        simp only [redactQuery]
        rw [if_neg ha, if_pos hsec]
      rw [hr]
      constructor
      · exact valuesGet_set_same _ _ _
      · intro hvmem
        obtain ⟨p, hp, hvp⟩ := mem_valuesList.mp hvmem
        rcases mem_valuesSet_elim p _ _ _ hnd hp with hEq | ⟨hp2, hk2⟩
        · rw [hEq] at hvp
          exact hmark (List.mem_singleton.mp hvp)
        · exact hother p hp2 hk2 hvp

/-- C8 witness: a query binding `access_token` to the single value "tok123"
and an unrelated key: after redaction the getter reports the marker and the
secret is gone from the recorded values. -/
theorem redact_secret_amended_witness :
    valuesGet (redactQuery [("access_token", ["tok123"]), ("other", ["x"])]) "access_token"
      = "REDACTED" ∧
    "tok123" ∉ valuesList (redactQuery [("access_token", ["tok123"]), ("other", ["x"])]) :=
  (redact_secret_amended [("access_token", ["tok123"]), ("other", ["x"])] "tok123"
    (by decide) (by decide)).1 (by decide) (by decide) (by decide)

/-! ## C9 — the captured request body never reaches the request-body field -/

/-- A failed response whose originating request has a JSON Content-Type and a
readable body "REQBODY", and whose own body reads as "RESPBODY". -/
def jsonReqResp : RespModel :=
  { request := some
      { url := { base := "http://example.com/items", query := [] }
        method := "POST"
        contentType := "application/json; charset=utf-8"
        body := some "REQBODY" }
    statusCode := 422
    body := some "RESPBODY" }

/-- C9: evaluation of the classifier at the failing input.  `NewClientErr`
writes the captured JSON request body into the `respBody` field
(src/error.go:60) and then overwrites that field with the response body
(src/error.go:66-67), so the `reqBody` field stays empty, the diagnostic has
no request_body segment, and the request body text "REQBODY" is lost — the
claim (and the struct's own `reqBody` field with its `request_body=%q`
printer at src/error.go:86-88) expects it in the request-body field as the
final segment. -/
theorem request_body_misrecorded :
    (NewClientErr { emptyErrOpt with resp := some jsonReqResp }).reqBody = "" ∧
    (NewClientErr { emptyErrOpt with resp := some jsonReqResp }).respBody = "RESPBODY" ∧
    strContains (HTTPErr.Error (NewClientErr { emptyErrOpt with resp := some jsonReqResp }))
      "request_body" = false ∧
    strContains (HTTPErr.Error (NewClientErr { emptyErrOpt with resp := some jsonReqResp }))
      "REQBODY" = false ∧
    HTTPErr.Error (NewClientErr { emptyErrOpt with resp := some jsonReqResp }) =
      "status=422 method=POST url=\"http://example.com/items\" " ++
      "err=\"received unexpected response\" response_body=\"RESPBODY\"" := by decide

/-! ## C10 — drain and close errors are not surfaced -/

/-- A request configuration accepting only status 204. -/
def noContentCfg : DoCfg :=
  { successFns := [fun s => s = 204], retryStatusFns := [], notFoundFns := [], existsFns := [] }

/-- C10 counterexample: a received 500 response whose body stream fails with
"close failed" when closed.  `drain` collects that message into its returned
error, but the deferred call at src/request.go:189-191 discards it: the
classified failure handed to the caller carries a non-empty diagnostic that
does not mention the close error anywhere. -/
theorem drain_error_not_surfaced_counterexample :
    drain none (some "close failed") = "close failed" ∧
    (doRespond noContentCfg { request := none, statusCode := 500, body := some "oops" }
        none (some "close failed")).map
      (fun e => strContains (HTTPErr.Error e) "close failed") = some false ∧
    (doRespond noContentCfg { request := none, statusCode := 500, body := some "oops" }
        none (some "close failed")).map
      (fun e => HTTPErr.Error e) =
      some "status=500 err=\"received unexpected response\" response_body=\"oops\"" := by
  decide

/-- C10 amended: on every exit path of the response phase the body stream is
drained and closed, and `drain` does collect the copy-time and close-time
error texts into the single error value it returns; but the executor's
deferred call discards that value, so the result returned to the caller is
entirely independent of any drain-time or close-time error — those errors
are silently dropped, not surfaced in the composed diagnostic. -/
theorem doRespond_drain_independent :
    (∀ (cfg : DoCfg) (resp : RespModel) (c1 c2 d1 d2 : Option String),
      doRespond cfg resp c1 d1 = doRespond cfg resp c2 d2) ∧
    (∀ a b : String,
      drain (some a) (some b) = a ++ "; " ++ b ∧
      drain none (some b) = b ∧
      drain (some a) none = a ∧
      drain none none = "") :=
  ⟨fun _ _ _ _ _ _ => rfl, fun _ _ => ⟨rfl, rfl, rfl, rfl⟩⟩
